import Mathlib

/-!
Verification of the fact-store reducer from `src/frontend/src/hooks/useFacts.ts`.

The hook keeps an in-memory ordered list of fact records and exposes
`performAction` (save / discard) and a no-op `refresh`.  The embedding below
translates the reducer body directly: text values are lists of characters,
JavaScript `String.prototype.trim` is modelled by `jsTrim`, and the clock read
`new Date().toISOString()` becomes an explicit `now` parameter, since it is the
only non-deterministic input of the reducer.
-/

namespace UseFacts

/-- Model of JavaScript `String.prototype.trim` over a list of characters:
drop leading whitespace, then drop trailing whitespace (implemented by
reversing, dropping leading whitespace, and reversing back). -/
def jsTrim (s : List Char) : List Char :=
  ((s.dropWhile Char.isWhitespace).reverse.dropWhile Char.isWhitespace).reverse

/-- Modelled from the spec: the `FactRecord` type is declared in
`src/frontend/src/lib/facts.ts`, which is not part of the supplied sources.
Its fields are reconstructed from the object literal built in
`performAction` and from spec section 3: `id`, `text`, `status` (always
`"saved"` in this core) and `createdAt` (the ISO timestamp string). -/
structure FactRecord where
  id : String
  text : List Char
  status : String
  createdAt : String
deriving DecidableEq, Repr

/-- The action type tag: `"save" | "discard"` in the source. -/
inductive ActionType where
  | save
  | discard
deriving DecidableEq, Repr

/-- The `FactAction` shape from `useFacts.ts`:
`{ type: "save" | "discard"; factId: string; factText?: string }`. -/
structure FactAction where
  type : ActionType
  factId : String
  factText : Option (List Char) := none
deriving DecidableEq, Repr

/-- The state-update function inside `performAction` in `useFacts.ts`.
On `"save"` it trims `factText ?? ""`; if the result is empty or some record
already has `factId`, the current list is returned unchanged, otherwise a new
record `{id, text, status: "saved", createdAt: now}` is appended.  On
`"discard"` the list is filtered, keeping records whose `id` differs from
`factId`.  The clock read `new Date().toISOString()` is the `now` argument. -/
def performAction (now : String) (currentFacts : List FactRecord)
    (action : FactAction) : List FactRecord :=
  match action.type with
  | .save =>
    let text := jsTrim (action.factText.getD [])
    if text.isEmpty || currentFacts.any (fun fact => fact.id == action.factId) then
      currentFacts
    else
      currentFacts ++ [{ id := action.factId, text := text, status := "saved",
                         createdAt := now }]
  | .discard =>
    currentFacts.filter (fun fact => fact.id != action.factId)

/-- The `refresh` callback of `useFacts.ts` has an empty body: as a function on
the collection state it is the identity. -/
def refresh (facts : List FactRecord) : List FactRecord := facts

/-- Run a sequence of actions from an initial collection; each step carries the
timestamp string the clock would produce at that step. -/
def runActions (init : List FactRecord) (steps : List (String × FactAction)) :
    List FactRecord :=
  steps.foldl (fun facts step => performAction step.1 facts step.2) init

/-- Invariant: no two records in the collection share an `id`. -/
def UniqueIds (facts : List FactRecord) : Prop :=
  facts.Pairwise (fun a b => a.id ≠ b.id)

/-- Invariant: every record's text is non-empty and already trimmed. -/
def TrimmedTexts (facts : List FactRecord) : Prop :=
  ∀ r ∈ facts, r.text ≠ [] ∧ jsTrim r.text = r.text

theorem head?_dropWhile_not {α : Type} (p : α → Bool) :
    ∀ (l : List α) (a : α), (l.dropWhile p).head? = some a → p a = false := by
  intro l
  induction l with
  | nil => intro a h; simp [List.dropWhile] at h
  | cons b t ih =>
    intro a h
    cases hp : p b with
    | true => rw [List.dropWhile_cons_of_pos hp] at h; exact ih a h
    | false =>
      rw [List.dropWhile_cons_of_neg (by simp [hp])] at h
      simp only [List.head?_cons, Option.some.injEq] at h
      rw [← h]; exact hp

theorem dropWhile_eq_self_of_head {α : Type} (p : α → Bool) (l : List α)
    (h : ∀ a, l.head? = some a → p a = false) : l.dropWhile p = l := by
  cases l with
  | nil => rfl
  | cons b t =>
    have hb := h b rfl
    rw [List.dropWhile_cons_of_neg (by simp [hb])]

theorem getLast?_dropWhile {α : Type} (p : α → Bool) (l : List α)
    (h : l.dropWhile p ≠ []) : (l.dropWhile p).getLast? = l.getLast? := by
  induction l with
  | nil => simp [List.dropWhile] at h
  | cons b t ih =>
    cases hp : p b with
    | true =>
      rw [List.dropWhile_cons_of_pos hp] at h ⊢
      have ht : t ≠ [] := by
        intro he; rw [he] at h; simp [List.dropWhile] at h
      rw [ih h, ← List.singleton_append, List.getLast?_append_of_ne_nil _ ht]
    | false =>
      rw [List.dropWhile_cons_of_neg (by simp [hp])]

theorem jsTrim_head_not (s : List Char) (a : Char)
    (h : (jsTrim s).head? = some a) : a.isWhitespace = false := by
  unfold jsTrim at h
  rw [List.head?_reverse] at h
  have hne : (s.dropWhile Char.isWhitespace).reverse.dropWhile Char.isWhitespace ≠ [] := by
    intro he; rw [he] at h; simp at h
  rw [getLast?_dropWhile _ _ hne, List.getLast?_reverse] at h
  exact head?_dropWhile_not _ _ _ h

theorem jsTrim_getLast_not (s : List Char) (a : Char)
    (h : (jsTrim s).getLast? = some a) : a.isWhitespace = false := by
  unfold jsTrim at h
  rw [List.getLast?_reverse] at h
  exact head?_dropWhile_not _ _ _ h

/-- Trimming is idempotent: the text stored by a successful save is fixed by
a further trim. -/
theorem jsTrim_idem (s : List Char) : jsTrim (jsTrim s) = jsTrim s := by
  show (((jsTrim s).dropWhile Char.isWhitespace).reverse.dropWhile
      Char.isWhitespace).reverse = jsTrim s
  rw [dropWhile_eq_self_of_head _ _ (fun a h => jsTrim_head_not s a h)]
  rw [dropWhile_eq_self_of_head _ _ (fun a h => by
    rw [List.head?_reverse] at h; exact jsTrim_getLast_not s a h)]
  exact List.reverse_reverse _

/-- A successful save appends exactly one record (helper, stated over the
optional `factText` as the source reads it). -/
theorem save_append_aux (now : String) (facts : List FactRecord)
    (factId : String) (o : Option (List Char))
    (h1 : jsTrim (o.getD []) ≠ [])
    (h2 : ∀ r ∈ facts, r.id ≠ factId) :
    performAction now facts ⟨.save, factId, o⟩ =
      facts ++ [{ id := factId, text := jsTrim (o.getD []), status := "saved",
                  createdAt := now }] := by
  have hEmpty : (jsTrim (o.getD [])).isEmpty = false := by
    simpa [List.isEmpty_iff] using h1
  have hAny : facts.any (fun fact => fact.id == factId) = false := by
    rw [List.any_eq_false]
    intro r hr
    simpa using h2 r hr
  simp [performAction, hEmpty, hAny]

/-- An invalid save (empty trimmed text or an already-present id) returns the
current list unchanged (helper). -/
theorem save_noop_aux (now : String) (facts : List FactRecord)
    (factId : String) (o : Option (List Char))
    (h : jsTrim (o.getD []) = [] ∨ ∃ r ∈ facts, r.id = factId) :
    performAction now facts ⟨.save, factId, o⟩ = facts := by
  rcases h with he | ⟨r, hr, hid⟩
  · simp [performAction, he]
  · have : facts.any (fun fact => fact.id == factId) = true := by
      rw [List.any_eq_true]; exact ⟨r, hr, by simpa using hid⟩
    simp [performAction, this]

/-- Discarding an id that is absent filters nothing out (helper). -/
theorem discard_noop_aux (now : String) (facts : List FactRecord)
    (factId : String) (o : Option (List Char))
    (h : ∀ r ∈ facts, r.id ≠ factId) :
    performAction now facts ⟨.discard, factId, o⟩ = facts := by
  simp only [performAction]
  rw [List.filter_eq_self]
  intro r hr
  simpa using h r hr

/-- No record of a discard's result carries the discarded id (helper). -/
theorem mem_discard_ne_aux (now : String) (facts : List FactRecord)
    (factId : String) (o : Option (List Char)) :
    ∀ r ∈ performAction now facts ⟨.discard, factId, o⟩, r.id ≠ factId := by
  intro r hr
  simp only [performAction, List.mem_filter, bne_iff_ne, ne_eq] at hr
  exact hr.2

/-- On a list with pairwise-distinct ids containing the target id, the discard
filter removes exactly the one matching record and keeps the flanks (helper). -/
theorem filter_decomp (factId : String) (facts : List FactRecord)
    (huniq : UniqueIds facts) (hex : ∃ r ∈ facts, r.id = factId) :
    ∃ l1 r l2, facts = l1 ++ r :: l2 ∧ r.id = factId ∧
      facts.filter (fun fact => fact.id != factId) = l1 ++ l2 := by
  induction facts with
  | nil => simp at hex
  | cons a t ih =>
    rw [UniqueIds, List.pairwise_cons] at huniq
    obtain ⟨ha, ht⟩ := huniq
    by_cases hid : a.id = factId
    · refine ⟨[], a, t, rfl, hid, ?_⟩
      rw [List.filter_cons_of_neg (by simp [hid])]
      simp only [List.nil_append]
      rw [List.filter_eq_self]
      intro b hb
      have hne := ha b hb
      rw [hid] at hne
      simpa using fun he => hne he.symm
    · have hex' : ∃ r ∈ t, r.id = factId := by
        rcases hex with ⟨r, hr, hrid⟩
        rcases List.mem_cons.mp hr with h | h
        · exact absurd (h ▸ hrid) hid
        · exact ⟨r, h, hrid⟩
      obtain ⟨l1, r, l2, he, hr, hf⟩ := ih ht hex'
      refine ⟨a :: l1, r, l2, by rw [he, List.cons_append], hr, ?_⟩
      rw [List.filter_cons_of_pos (by simpa using hid), hf, List.cons_append]

/-- One reducer step preserves both collection invariants (helper). -/
theorem inv_step (now : String) (facts : List FactRecord) (action : FactAction)
    (h : UniqueIds facts ∧ TrimmedTexts facts) :
    UniqueIds (performAction now facts action) ∧
      TrimmedTexts (performAction now facts action) := by
  obtain ⟨hu, htr⟩ := h
  obtain ⟨ty, factId, o⟩ := action
  cases ty with
  | save =>
    simp only [performAction]
    split
    · exact ⟨hu, htr⟩
    · rename_i hc
      rw [Bool.or_eq_true, not_or] at hc
      obtain ⟨h1, h2⟩ := hc
      have hne : jsTrim (o.getD []) ≠ [] := by
        intro he
        exact h1 (by simp [he])
      have hfresh : ∀ r ∈ facts, r.id ≠ factId := by
        intro r hr hrid
        exact h2 (List.any_eq_true.mpr ⟨r, hr, by simpa using hrid⟩)
      constructor
      · rw [UniqueIds, List.pairwise_append]
        exact ⟨hu, List.pairwise_singleton _ _,
          fun a ha b hb => by
            rw [List.mem_singleton.mp hb]
            exact hfresh a ha⟩
      · intro r hr
        rcases List.mem_append.mp hr with h | h
        · exact htr r h
        · rw [List.mem_singleton.mp h]
          exact ⟨hne, jsTrim_idem _⟩
  | discard =>
    simp only [performAction]
    constructor
    · exact List.Pairwise.sublist (List.filter_sublist _) hu
    · intro r hr
      exact htr r (List.mem_filter.mp hr).1

/-- Claim C1: if no record carries `factId` and the trimmed `factText` is
non-empty, a save appends exactly one record — id `factId`, the trimmed text,
status `"saved"` — at the end, leaving every previous record unchanged. -/
theorem save_appends_new_record (now : String) (facts : List FactRecord)
    (factId : String) (factText : List Char)
    (h1 : jsTrim factText ≠ [])
    (h2 : ∀ r ∈ facts, r.id ≠ factId) :
    performAction now facts ⟨.save, factId, some factText⟩ =
      facts ++ [{ id := factId, text := jsTrim factText, status := "saved",
                  createdAt := now }] := by
  simpa using save_append_aux now facts factId (some factText) (by simpa) h2

/-- Claim C1, instantiated: saving `" hello "` under id `"a"` into the empty
collection stores the single record with trimmed text `"hello"`. -/
theorem save_appends_new_record_witness :
    jsTrim " hello ".toList ≠ [] ∧
    (∀ r ∈ ([] : List FactRecord), r.id ≠ "a") ∧
    performAction "t1" [] ⟨.save, "a", some " hello ".toList⟩ =
      [⟨"a", "hello".toList, "saved", "t1"⟩] :=
  ⟨by decide, by decide,
    save_appends_new_record "t1" [] "a" " hello ".toList (by decide) (by decide)⟩

/-- Claim C2: a save whose trimmed text is empty, or whose id already occurs,
leaves the collection exactly unchanged; in particular saving the same id
twice keeps only the first saved text. -/
theorem save_invalid_is_noop :
    (∀ (now : String) (facts : List FactRecord) (factId : String)
        (o : Option (List Char)),
      jsTrim (o.getD []) = [] ∨ (∃ r ∈ facts, r.id = factId) →
      performAction now facts ⟨.save, factId, o⟩ = facts) ∧
    (∀ (now1 now2 factId : String) (t1 t2 : Option (List Char)),
      jsTrim (t1.getD []) ≠ [] →
      performAction now2 (performAction now1 [] ⟨.save, factId, t1⟩)
          ⟨.save, factId, t2⟩ =
        [⟨factId, jsTrim (t1.getD []), "saved", now1⟩]) := by
  constructor
  · exact save_noop_aux
  · intro now1 now2 factId t1 t2 h
    have h1 : performAction now1 [] ⟨.save, factId, t1⟩ =
        [⟨factId, jsTrim (t1.getD []), "saved", now1⟩] := by
      simpa using save_append_aux now1 [] factId t1 h (by simp)
    rw [h1]
    exact save_noop_aux now2 _ factId t2
      (Or.inr ⟨_, List.mem_singleton_self _, rfl⟩)

/-- Claim C2, instantiated: a second save under the same id keeps the first
text and drops the second. -/
theorem save_invalid_is_noop_witness :
    jsTrim "first".toList ≠ [] ∧
    performAction "t2" (performAction "t1" [] ⟨.save, "a", some "first".toList⟩)
        ⟨.save, "a", some "second".toList⟩ =
      [⟨"a", "first".toList, "saved", "t1"⟩] :=
  ⟨by decide,
    save_invalid_is_noop.2 "t1" "t2" "a" (some "first".toList)
      (some "second".toList) (by decide)⟩

/-- Claim C3: on a collection with pairwise-distinct ids that contains the
target id, a discard leaves no record with that id, shrinks the length by
exactly one, and keeps the remaining records unchanged and in order (the
result is the original list with the single matching record cut out). -/
theorem discard_present_removes_one (now : String) (facts : List FactRecord)
    (factId : String) (o : Option (List Char))
    (huniq : UniqueIds facts) (hex : ∃ r ∈ facts, r.id = factId) :
    (∀ r ∈ performAction now facts ⟨.discard, factId, o⟩, r.id ≠ factId) ∧
    (performAction now facts ⟨.discard, factId, o⟩).length + 1 = facts.length ∧
    ∃ l1 r l2, facts = l1 ++ r :: l2 ∧ r.id = factId ∧
      performAction now facts ⟨.discard, factId, o⟩ = l1 ++ l2 := by
  obtain ⟨l1, r, l2, he, hr, hf⟩ := filter_decomp factId facts huniq hex
  have hpa : performAction now facts ⟨.discard, factId, o⟩ = l1 ++ l2 := hf
  refine ⟨mem_discard_ne_aux now facts factId o, ?_, l1, r, l2, he, hr, hpa⟩
  rw [hpa, he]
  simp only [List.length_append, List.length_cons]
  omega

/-- Claim C3, instantiated: discarding `"a"` from a two-record collection
removes exactly the `"a"` record. -/
theorem discard_present_removes_one_witness :
    UniqueIds [⟨"a", "one".toList, "saved", "t1"⟩,
               ⟨"b", "two".toList, "saved", "t2"⟩] ∧
    (∃ r ∈ [(⟨"a", "one".toList, "saved", "t1"⟩ : FactRecord),
            ⟨"b", "two".toList, "saved", "t2"⟩], r.id = "a") ∧
    ((∀ r ∈ performAction "t3"
        [⟨"a", "one".toList, "saved", "t1"⟩,
         ⟨"b", "two".toList, "saved", "t2"⟩] ⟨.discard, "a", none⟩,
        r.id ≠ "a") ∧
     (performAction "t3"
        [⟨"a", "one".toList, "saved", "t1"⟩,
         ⟨"b", "two".toList, "saved", "t2"⟩]
        ⟨.discard, "a", none⟩).length + 1 = 2 ∧
     ∃ l1 r l2,
       [(⟨"a", "one".toList, "saved", "t1"⟩ : FactRecord),
        ⟨"b", "two".toList, "saved", "t2"⟩] = l1 ++ r :: l2 ∧ r.id = "a" ∧
       performAction "t3"
         [⟨"a", "one".toList, "saved", "t1"⟩,
          ⟨"b", "two".toList, "saved", "t2"⟩] ⟨.discard, "a", none⟩ =
         l1 ++ l2) :=
  ⟨by unfold UniqueIds; decide, by decide,
    discard_present_removes_one "t3" _ "a" none (by unfold UniqueIds; decide)
      (by decide)⟩

/-- Claim C4: discarding an id that no record carries leaves the collection
unchanged, same elements in the same order. -/
theorem discard_unknown_is_noop (now : String) (facts : List FactRecord)
    (factId : String) (o : Option (List Char))
    (h : ∀ r ∈ facts, r.id ≠ factId) :
    performAction now facts ⟨.discard, factId, o⟩ = facts :=
  discard_noop_aux now facts factId o h

/-- Claim C4, instantiated: discarding the unknown id `"z"` changes nothing. -/
theorem discard_unknown_is_noop_witness :
    (∀ r ∈ [(⟨"a", "one".toList, "saved", "t1"⟩ : FactRecord)], r.id ≠ "z") ∧
    performAction "t2" [⟨"a", "one".toList, "saved", "t1"⟩]
        ⟨.discard, "z", none⟩ =
      [⟨"a", "one".toList, "saved", "t1"⟩] :=
  ⟨by decide, discard_unknown_is_noop "t2" _ "z" none (by decide)⟩

/-- Claim C5: every collection reachable from the empty collection by a finite
action sequence has pairwise-distinct ids, and every stored text is non-empty
and fixed under trimming. -/
theorem reachable_collections_satisfy_invariants :
    ∀ steps : List (String × FactAction),
    UniqueIds (runActions [] steps) ∧ TrimmedTexts (runActions [] steps) := by
  have gen : ∀ (steps : List (String × FactAction)) (init : List FactRecord),
      UniqueIds init ∧ TrimmedTexts init →
      UniqueIds (runActions init steps) ∧ TrimmedTexts (runActions init steps) := by
    intro steps
    induction steps with
    | nil => intro init h; exact h
    | cons s t ih =>
      intro init h
      exact ih _ (inv_step s.1 init s.2 h)
  intro steps
  exact gen steps [] ⟨List.Pairwise.nil, by intro r hr; simp at hr⟩

/-- Claim C6: saving ids `"a"`, `"b"`, `"c"` in turn yields the records in
that order and a later discard of `"b"` yields `[a, c]`; in general a save
either changes nothing or appends one record at the end, and a discard
returns a sublist of the input (relative order of survivors preserved). -/
theorem insertion_order_preserved :
    (runActions []
        [("t1", ⟨.save, "a", some "first fact".toList⟩),
         ("t2", ⟨.save, "b", some "second fact".toList⟩),
         ("t3", ⟨.save, "c", some "third fact".toList⟩)] =
      [⟨"a", "first fact".toList, "saved", "t1"⟩,
       ⟨"b", "second fact".toList, "saved", "t2"⟩,
       ⟨"c", "third fact".toList, "saved", "t3"⟩]) ∧
    (performAction "t4"
        [⟨"a", "first fact".toList, "saved", "t1"⟩,
         ⟨"b", "second fact".toList, "saved", "t2"⟩,
         ⟨"c", "third fact".toList, "saved", "t3"⟩] ⟨.discard, "b", none⟩ =
      [⟨"a", "first fact".toList, "saved", "t1"⟩,
       ⟨"c", "third fact".toList, "saved", "t3"⟩]) ∧
    (∀ (now : String) (facts : List FactRecord) (factId : String)
        (o : Option (List Char)),
      performAction now facts ⟨.save, factId, o⟩ = facts ∨
      ∃ r, performAction now facts ⟨.save, factId, o⟩ = facts ++ [r]) ∧
    (∀ (now : String) (facts : List FactRecord) (factId : String)
        (o : Option (List Char)),
      (performAction now facts ⟨.discard, factId, o⟩).Sublist facts) := by
  refine ⟨by decide, by decide, ?_, ?_⟩
  · intro now facts factId o
    simp only [performAction]
    split
    · exact Or.inl rfl
    · exact Or.inr ⟨_, rfl⟩
  · intro now facts factId o
    exact List.filter_sublist _

/-- Claim C7: `refresh` is the identity on the collection, so any number of
applications changes nothing. -/
theorem refresh_is_idempotent_noop :
    ∀ (n : Nat) (facts : List FactRecord), refresh^[n] facts = facts := by
  intro n facts
  induction n with
  | zero => rfl
  | succ k ih => rw [Function.iterate_succ_apply, refresh, ih]

/-- Claim C8: `performAction` is a total function into collections — never an
error value: every result is the unchanged list, the list with one appended
record, or a sublist of it; and each invalid input (empty trimmed text or
duplicate id on save, unknown id on discard) yields the input unchanged. -/
theorem performAction_never_errors :
    (∀ (now : String) (facts : List FactRecord) (action : FactAction),
      performAction now facts action = facts ∨
      (∃ r, performAction now facts action = facts ++ [r]) ∨
      (performAction now facts action).Sublist facts) ∧
    (∀ (now : String) (facts : List FactRecord) (factId : String)
        (o : Option (List Char)),
      jsTrim (o.getD []) = [] ∨ (∃ r ∈ facts, r.id = factId) →
      performAction now facts ⟨.save, factId, o⟩ = facts) ∧
    (∀ (now : String) (facts : List FactRecord) (factId : String)
        (o : Option (List Char)),
      (∀ r ∈ facts, r.id ≠ factId) →
      performAction now facts ⟨.discard, factId, o⟩ = facts) := by
  refine ⟨?_, save_noop_aux, discard_noop_aux⟩
  intro now facts ⟨ty, factId, o⟩
  cases ty with
  | save =>
    simp only [performAction]
    split
    · exact Or.inl rfl
    · exact Or.inr (Or.inl ⟨_, rfl⟩)
  | discard => exact Or.inr (Or.inr (List.filter_sublist _))

/-- Claim C8, instantiated: a save with only-whitespace text on the empty
collection returns the empty collection, not an error. -/
theorem performAction_never_errors_witness :
    jsTrim "   ".toList = [] ∧
    performAction "t1" [] ⟨.save, "x", some "   ".toList⟩ = [] :=
  ⟨by decide,
    performAction_never_errors.2.1 "t1" [] "x" (some "   ".toList)
      (Or.inl (by decide))⟩

/-- Claim C9: even on a collection holding several records with the same id,
a discard removes every record whose id equals `factId`: nothing with that id
survives the filter. -/
theorem discard_removes_every_matching_record (now : String)
    (facts : List FactRecord) (factId : String) (o : Option (List Char)) :
    ∀ r ∈ performAction now facts ⟨.discard, factId, o⟩, r.id ≠ factId :=
  mem_discard_ne_aux now facts factId o

/-- Claim C9, instantiated on a collection with a duplicated id `"a"`: the
surviving record `"b"` does not carry the discarded id. -/
theorem discard_removes_every_matching_record_witness :
    (⟨"b", "other".toList, "saved", "t3"⟩ : FactRecord) ∈
      performAction "t4"
        [⟨"a", "one".toList, "saved", "t1"⟩,
         ⟨"a", "two".toList, "saved", "t2"⟩,
         ⟨"b", "other".toList, "saved", "t3"⟩] ⟨.discard, "a", none⟩ ∧
    (⟨"b", "other".toList, "saved", "t3"⟩ : FactRecord).id ≠ "a" :=
  ⟨by decide,
    discard_removes_every_matching_record "t4"
      [⟨"a", "one".toList, "saved", "t1"⟩,
       ⟨"a", "two".toList, "saved", "t2"⟩,
       ⟨"b", "other".toList, "saved", "t3"⟩] "a" none _ (by decide)⟩

/-- Claim C10: `performAction` is deterministic up to the clock read: two runs
of the same action on the same collection under different timestamps either
return identical lists, or both append one record that agrees in id, text and
status and differs at most in `createdAt`, which carries each run's clock
value; the carried-over records are identical. -/
theorem performAction_deterministic_up_to_timestamps :
    ∀ (now1 now2 : String) (facts : List FactRecord) (action : FactAction),
    performAction now1 facts action = performAction now2 facts action ∨
    ∃ r1 r2, performAction now1 facts action = facts ++ [r1] ∧
      performAction now2 facts action = facts ++ [r2] ∧
      r1.id = r2.id ∧ r1.text = r2.text ∧ r1.status = r2.status ∧
      r1.createdAt = now1 ∧ r2.createdAt = now2 := by
  intro now1 now2 facts ⟨ty, factId, o⟩
  cases ty with
  | save =>
    cases hc : ((jsTrim (o.getD [])).isEmpty ||
        facts.any fun fact => fact.id == factId) with
    | true => left; simp [performAction, hc]
    | false =>
      right
      refine ⟨{ id := factId, text := jsTrim (o.getD []), status := "saved",
                createdAt := now1 },
              { id := factId, text := jsTrim (o.getD []), status := "saved",
                createdAt := now2 },
              ?_, ?_, rfl, rfl, rfl, rfl, rfl⟩ <;>
        simp [performAction, hc]
  | discard => left; rfl

end UseFacts
